import Mathlib

/-!
Verification of the finite model builder (FMB) encoder and search loop.

The definitions below are shallow embeddings of the functions of
FiniteModelBuilder.cpp: the propositional variable addressing
(getSATLiteral), the variable-space layout computed by reset, the clause
emitters (functionality, totality, canonicity, clause instances), the
grounded-term construction of reset, and the outer search loop runImpl.
Unsigned machine integers are modelled as Nat; the overflow guard of
reset is the explicit comparison against a UINTMAX parameter, and the
goto-driven mixed-radix enumerations are modelled as exhaustive tuple
enumerations over the same bounds (same set of groundings, same per-tuple
bodies).  Definitions whose name matches a C++ member model that member.
-/

/-- A propositional literal: a SAT variable index with a polarity. -/
structure SATLit where
  var : Nat
  pol : Bool
deriving DecidableEq, Repr

/-- A SAT clause is a disjunction of literals, kept as the emission list. -/
abbrev SATClauseM := List SATLit

/-- An assignment makes a literal true when the variable value matches the
polarity. -/
def satLit (asg : Nat → Bool) (l : SATLit) : Prop := asg l.var = l.pol

/-- A clause is satisfied when some literal in it is true. -/
def satClause (asg : Nat → Bool) (c : SATClauseM) : Prop := ∃ l ∈ c, satLit asg l

/-- The variable-computation loop of FiniteModelBuilder::getSATLiteral:
var starts at the offset, and each grounding entry g adds mult*(g-1) with
mult multiplied by size after every position. -/
def satVarAux (size : Nat) : List Nat → Nat → Nat → Nat
  | [], var, _mult => var
  | g :: gs, var, mult => satVarAux size gs (var + mult * (g - 1)) (mult * size)

/-- The SAT variable computed by FiniteModelBuilder::getSATLiteral for a
symbol with the given block offset and grounding tuple. -/
def getSATVar (offset : Nat) (grounding : List Nat) (size : Nat) : Nat :=
  satVarAux size grounding offset 1

/-- FiniteModelBuilder::getSATLiteral: the addressed variable tagged with
the requested polarity. -/
def getSATLiteral (offset : Nat) (grounding : List Nat) (pol : Bool) (size : Nat) : SATLit :=
  ⟨getSATVar offset grounding size, pol⟩

/-- Mixed-radix value of a grounding tuple: position i contributes
(entry-1)*size^i.  This is the in-block index addressed by getSATLiteral. -/
def encodeTuple (size : Nat) : List Nat → Nat
  | [] => 0
  | g :: gs => (g - 1) + size * encodeTuple size gs

/-- All tuples over the given per-position bounds: entry i ranges over
[1..mins[i]].  This is the set of groundings visited by the labelled
mixed-radix loops of FiniteModelBuilder (instanceLabel, newFuncLabel,
newTotalLabel): those loops start at the all-ones tuple and step the last
position fastest, visiting exactly every tuple within the bounds. -/
def tuplesUpTo : List Nat → List (List Nat)
  | [] => [[]]
  | m :: ms => (List.range m).flatMap (fun a => (tuplesUpTo ms).map (fun t => (a + 1) :: t))

/-- FiniteModelBuilder::addNewFunctionalDefs restricted to one function
with the given offset, arity and bounds vector: for every grounding of
the two image slots and the argument slots within
mins = [min(bounds[0],size), min(bounds[0],size), min(bounds[i+1],size)...],
instances with grounding[0] >= grounding[1] are skipped, and the rest emit
the two-literal clause (not f(args)=g0 \/ not f(args)=g1). -/
def addNewFunctionalDefs (offset arity size : Nat) (bounds : List Nat) : List SATClauseM :=
  (tuplesUpTo ([min (bounds.getD 0 0) size, min (bounds.getD 0 0) size] ++
      (List.range arity).map (fun i => min (bounds.getD (i + 1) 0) size))).filterMap
    (fun g =>
      match g with
      | g0 :: g1 :: args =>
        if g0 < g1 then
          some [getSATLiteral offset (args ++ [g0]) false size,
                getSATLiteral offset (args ++ [g1]) false size]
        else none
      | _ => none)

/-- FiniteModelBuilder::addNewTotalityDefs restricted to one function with
the given offset, arity and bounds vector: for arity 0 a single clause over
the image range [1..min(size,bounds[0])], otherwise one such clause per
argument grounding within min(bounds[i+1],size). -/
def addNewTotalityDefs (offset arity size : Nat) (bounds : List Nat) : List SATClauseM :=
  if arity = 0 then
    [(List.range (min size (bounds.getD 0 0))).map
      (fun i => getSATLiteral offset [i + 1] true size)]
  else
    (tuplesUpTo ((List.range arity).map (fun i => min (bounds.getD (i + 1) 0) size))).map
      (fun args =>
        (List.range (min size (bounds.getD 0 0))).map
          (fun j => getSATLiteral offset (args ++ [j + 1]) true size))

/-- A flat first-order literal, after ClauseFlattening: a two-variable
(dis)equality, a definition equality f(xbar)=y over distinct variables, or
a predicate atom over variables. -/
inductive FlatLit where
  | twoVarEq (pol : Bool) (x y : Nat)
  | defEq (pol : Bool) (f : Nat) (args : List Nat) (res : Nat)
  | predAtom (pol : Bool) (p : Nat) (args : List Nat)
deriving DecidableEq, Repr

/-- The literal-translation loop body of FiniteModelBuilder::addNewInstances
for one grounding g (variable index to domain element): two-variable
equalities that hold trivially under g abort the whole instance (none, the
goto to instanceLabel), trivially false ones are dropped (the continue),
and definition equalities and predicate atoms become SAT literals with the
source literal polarity. -/
def groundInstanceLits (fOff pOff : Nat → Nat) (size : Nat) (g : Nat → Nat) :
    List FlatLit → Option (List SATLit)
  | [] => some []
  | FlatLit.twoVarEq pol x y :: rest =>
    if (pol && (g x == g y)) || (!pol && !(g x == g y)) then none
    else groundInstanceLits fOff pOff size g rest
  | FlatLit.defEq pol f args res :: rest =>
    (groundInstanceLits fOff pOff size g rest).map
      (fun ls => getSATLiteral (fOff f) (args.map g ++ [g res]) pol size :: ls)
  | FlatLit.predAtom pol p args :: rest =>
    (groundInstanceLits fOff pOff size g rest).map
      (fun ls => getSATLiteral (pOff p) (args.map g) pol size :: ls)

/-- A grounded two-variable equality is tautological under g when its
polarity agrees with whether the two grounded values coincide. -/
def tautTwoVarEq (g : Nat → Nat) : FlatLit → Bool
  | FlatLit.twoVarEq pol x y => pol == (g x == g y)
  | _ => false

/-- Declarative per-literal translation (the specification of 4.4.2):
two-variable equalities contribute nothing, definition equalities and
predicate atoms contribute their SAT literal with the source polarity. -/
def transFlatLit (fOff pOff : Nat → Nat) (size : Nat) (g : Nat → Nat) :
    FlatLit → Option SATLit
  | FlatLit.twoVarEq _ _ _ => none
  | FlatLit.defEq pol f args res =>
    some (getSATLiteral (fOff f) (args.map g ++ [g res]) pol size)
  | FlatLit.predAtom pol p args =>
    some (getSATLiteral (pOff p) (args.map g) pol size)

/-- A grounded term (symbol, collapsed argument interpretation) as pushed
onto _sortedGroundedTerms by reset; constants carry grounding 0. -/
structure GroundedTerm where
  f : Nat
  grounding : Nat
deriving DecidableEq, Repr, Inhabited

/-- The canonicity window of addNewSymmetryCanonicityAxioms: the float
product symmetryRatio*maxSize converted to unsigned (truncation toward
zero, i.e. the floor for nonnegative values), capped by the number of
grounded terms.  The float value is modelled as an exact rational. -/
def wCanon (q : ℚ) (maxSize len : Nat) : Nat :=
  min (Int.toNat ⌊q * (maxSize : ℚ)⌋) len

/-- The literal calls of one canonicity clause (index i): the negative call
for groundedTerms[i] at image size, then a positive call at image size-1
for every j < i.  Each call records (symbol, grounding tuple, polarity) as
handed to getSATLiteral; the tuple is arity copies of the stored grounding
followed by the image slot. -/
def canonLitCalls (size : Nat) (arity : Nat → Nat) (gts : List GroundedTerm) (i : Nat) :
    List (Nat × List Nat × Bool) :=
  ((gts.getD i default).f,
    List.replicate (arity (gts.getD i default).f) (gts.getD i default).grounding ++ [size],
    false) ::
  (List.range i).map (fun j =>
    ((gts.getD j default).f,
      List.replicate (arity (gts.getD j default).f) (gts.getD j default).grounding ++ [size - 1],
      true))

/-- FiniteModelBuilder::addNewSymmetryCanonicityAxioms, recorded as the
list of getSATLiteral calls of each emitted clause: nothing for size <= 1,
otherwise one clause per i in [1..w-1] with w = wCanon. -/
def addNewSymmetryCanonicityAxioms (size : Nat) (q : ℚ) (maxSize : Nat)
    (gts : List GroundedTerm) (arity : Nat → Nat) : List (List (Nat × List Nat × Bool)) :=
  if size ≤ 1 then []
  else (List.range' 1 (wCanon q maxSize gts.length - 1)).map (canonLitCalls size arity gts)

/-- The clause family claimed in the specification for the canonicity
layer (written from the words of the claim, for comparison): clauses for
i in [1..w-1] with the window computed with a ceiling, at every size. -/
def specCanonClauses (size : Nat) (q : ℚ) (maxSize : Nat)
    (gts : List GroundedTerm) (arity : Nat → Nat) : List (List (Nat × List Nat × Bool)) :=
  (List.range' 1 (min (Int.toNat ⌈q * (maxSize : ℚ)⌉) gts.length - 1)).map
    (canonLitCalls size arity gts)

/-- The three widget-ordering policies of reset. -/
inductive FMBWidgetOrders where
  | FUNCTION_FIRST
  | ARGUMENT_FIRST
  | DIAGONAL
deriving DecidableEq, Repr

/-- The grounded-term construction of FiniteModelBuilder::reset for one
sort: its constants (with grounding 0) followed by its range-here
functions combined with domain indices according to the widget order,
skipping a function whose range bound is below size or whose argument
bound is below the proposed grounding. -/
def sortedGroundedTermsFor (order : FMBWidgetOrders) (size : Nat)
    (consts funcs : List Nat) (arity : Nat → Nat) (fbounds : Nat → List Nat) :
    List GroundedTerm :=
  consts.map (fun c => GroundedTerm.mk c 0) ++
  (match order with
  | FMBWidgetOrders.FUNCTION_FIRST =>
    funcs.flatMap (fun f =>
      (List.range' 1 size).filterMap (fun m =>
        if (fbounds f).getD 0 0 < size then none
        else if decide (∃ i < arity f, (fbounds f).getD (i + 1) 0 < m) then none
        else some (GroundedTerm.mk f m)))
  | FMBWidgetOrders.ARGUMENT_FIRST =>
    (List.range' 1 size).flatMap (fun m =>
      funcs.filterMap (fun f =>
        if (fbounds f).getD 0 0 < size then none
        else if decide (∃ i < arity f, (fbounds f).getD (i + 1) 0 < m) then none
        else some (GroundedTerm.mk f m)))
  | FMBWidgetOrders.DIAGONAL =>
    (List.range' 1 size).flatMap (fun m =>
      (List.range funcs.length).filterMap (fun fi =>
        let f := funcs.getD fi 0
        let grnd := 1 + ((m + fi) % size)
        if (fbounds f).getD 0 0 < size then none
        else if decide (∃ i < arity f, (fbounds f).getD (i + 1) 0 < grnd) then none
        else some (GroundedTerm.mk f grnd))))

/-- A signature symbol: its arity and whether it was eliminated during
preprocessing (del_f / del_p). -/
structure FSym where
  arity : Nat
  deleted : Bool
deriving DecidableEq, Repr, Inhabited

/-- The live signature handed to reset: the function symbols and the
predicate symbols from index 1 upward (predicate 0 is reserved). -/
structure SigL where
  funcs : List FSym
  preds : List FSym
deriving DecidableEq, Repr

/-- The block-size exponent used by reset: arity+2 for a function,
arity+1 for a predicate. -/
def blockExp (isF : Bool) (a : Nat) : Nat := if isF then a + 2 else a + 1

/-- The number of variables reset reserves for one symbol. -/
def blockSize (size : Nat) (x : FSym × Bool) : Nat := size ^ blockExp x.2 x.1.arity

/-- The reserved block of a symbol, zero when the symbol is deleted. -/
def liveBlock (size : Nat) (x : FSym × Bool) : Nat :=
  if x.1.deleted then 0 else blockSize size x

/-- The offset-assignment loop of FiniteModelBuilder::reset over a symbol
list (functions tagged true, then predicates tagged false): deleted
symbols get no offset, live symbols get the running offset which then
advances by the reserved block. -/
def resetOffsets (size : Nat) : List (FSym × Bool) → Nat → List (Option Nat) × Nat
  | [], off => ([], off)
  | x :: rest, off =>
    if x.1.deleted then
      ((resetOffsets size rest off).1.cons none, (resetOffsets size rest off).2)
    else
      ((resetOffsets size rest (off + blockSize size x)).1.cons (some off),
        (resetOffsets size rest (off + blockSize size x)).2)

/-- The unified symbol list processed by reset: functions first, then
predicates. -/
def symList (sig : SigL) : List (FSym × Bool) :=
  sig.funcs.map (fun s => (s, true)) ++ sig.preds.map (fun s => (s, false))

/-- The offsets and final accumulator computed by reset at the given size,
starting from offset 1. -/
def resetLayout (sig : SigL) (size : Nat) : List (Option Nat) × Nat :=
  resetOffsets size (symList sig) 1

/-- The variable count handed to the solver by reset:
ensureVarCount(offsets+1). -/
def totalVarsHanded (sig : SigL) (size : Nat) : Nat :=
  (resetLayout sig size).2 + 1

/-- The total variable count claimed by the specification (written from
the words of the claim, for comparison): 1 plus n^(arity+1) per live
function plus n^arity per live predicate. -/
def specTotalVars (sig : SigL) (size : Nat) : Nat :=
  1 + (sig.funcs.map (fun s => if s.deleted then 0 else size ^ (s.arity + 1))).sum
    + (sig.preds.map (fun s => if s.deleted then 0 else size ^ s.arity)).sum

/-- The offset of the symbol at position i of the unified list (0 when
absent or deleted; only used under a liveness hypothesis). -/
def symOffset (sig : SigL) (size i : Nat) : Nat :=
  (((resetLayout sig size).1.getD i none).getD 0)

/-- The grounding-tuple length of the symbol at position i: arity plus the
image slot for a function. -/
def tupleLenAt (sig : SigL) (i : Nat) : Nat :=
  ((symList sig).getD i default).1.arity + (if ((symList sig).getD i default).2 then 1 else 0)

/-- The SAT variable of the symbol at position i for a grounding tuple. -/
def varAt (sig : SigL) (size i : Nat) (t : List Nat) : Nat :=
  getSATVar (symOffset sig size i) t size

/-- Position i of the unified symbol list holds a live symbol. -/
def liveAt (sig : SigL) (i : Nat) : Prop :=
  i < (symList sig).length ∧ ((symList sig).getD i default).1.deleted = false

/-- A tuple is in bounds for the full domain: the right length, every
entry a domain element in [1..size]. -/
def inBoundsTuple (size : Nat) (t : List Nat) (len : Nat) : Prop :=
  t.length = len ∧ ∀ x ∈ t, 1 ≤ x ∧ x ≤ size

/-- SAT solver verdicts. -/
inductive SatRes where
  | SATISFIABLE
  | UNSATISFIABLE
  | UNKNOWN
deriving DecidableEq, Repr

/-- The outcomes of the search loop; AssertionViolation models a failed
ALWAYS/ASS assertion in the source. -/
inductive Outcome where
  | Satisfiable
  | Refutation
  | TimeLimit
  | Unknown
  | AssertionViolation
deriving DecidableEq, Repr

/-- The result of runImpl: the outcome, and the recorded textual model
(the constant tables materialised by onModelFound) when one was
recorded. -/
structure RunResult where
  outcome : Outcome
  model : Option (List (List Nat))
deriving DecidableEq, Repr

/-- The environment of one search: the per-size wallclock check, SAT
verdict, reset success, satisfying assignment and live constant offsets. -/
structure LoopEnv where
  timeout : Nat → Bool
  solve : Nat → SatRes
  resetOk : Nat → Bool
  asg : Nat → Nat → Bool
  constOffsets : Nat → List Nat


/-- The constant-extraction loop of FiniteModelBuilder::onModelFound: for
each live constant (given by its offset) the domain elements c in
[1..size] whose variable is true in the assignment. -/
def extractConstants (size : Nat) (asg : Nat → Bool) (constOffsets : List Nat) :
    List (List Nat) :=
  constOffsets.map (fun off =>
    (List.range size).filterMap (fun c0 =>
      if asg (getSATVar off [c0 + 1] size) then some (c0 + 1) else none))

/-- FiniteModelBuilder::onModelFound: when proof output is OFF it returns
before extracting anything; otherwise the interpretation is materialised
and recorded. -/
def onModelFound (proofOff : Bool) (size : Nat) (asg : Nat → Bool)
    (constOffsets : List Nat) : Option (List (List Nat)) :=
  if proofOff then none else some (extractConstants size asg constOffsets)

/-- The body of the while loop of FiniteModelBuilder::runImpl, with a fuel
argument: check the clock, solve, then return SATISFIABLE (recording the
model via onModelFound), or UNKNOWN at the unsigned ceiling
(modelSize == UINT_MAX; the variable n never exceeds UINTMAX, where the
comparison is written as UINTMAX <= n), or REFUTATION at the bound, or
advance to size n+1 when reset succeeds there and UNKNOWN when it does
not. -/
def runFromAux (env : LoopEnv) (proofOff : Bool) (maxSize UINTMAX : Nat) :
    Nat → Nat → RunResult
  | 0, _n => RunResult.mk Outcome.Unknown none
  | fuel + 1, n =>
    if env.timeout n then RunResult.mk Outcome.TimeLimit none
    else if env.solve n = SatRes.SATISFIABLE then
      RunResult.mk Outcome.Satisfiable (onModelFound proofOff n (env.asg n) (env.constOffsets n))
    else if UINTMAX ≤ n then RunResult.mk Outcome.Unknown none
    else if maxSize ≤ n then RunResult.mk Outcome.Refutation none
    else if env.resetOk (n + 1) then runFromAux env proofOff maxSize UINTMAX fuel (n + 1)
    else RunResult.mk Outcome.Unknown none

/-- The search loop from size n onward; the fuel UINTMAX+1-n is exact, so
the fuel-out branch is never taken for n <= UINTMAX. -/
def runFrom (env : LoopEnv) (proofOff : Bool) (maxSize UINTMAX n : Nat) : RunResult :=
  runFromAux env proofOff maxSize UINTMAX (UINTMAX + 1 - n) n

/-- The per-sort constant-count maximum computed by runImpl before the
loop: starts at 1 and takes every larger per-sort count. -/
def maxSortConstCount (counts : List Nat) : Nat :=
  counts.foldl (fun m c => if m < c then c else m) 1

/-- The maxModelSize lowering of runImpl: when the problem is EPR or has
no function of arity above zero, lower to the per-sort constant-count
maximum when that is below the current bound. -/
def lowerMaxModelSize (eprOrNoFun : Bool) (counts : List Nat) (maxModelSize : Nat) : Nat :=
  if eprOrNoFun then
    if maxSortConstCount counts < maxModelSize then maxSortConstCount counts else maxModelSize
  else maxModelSize

/-- The lowering claimed by the specification (written from the words of
the claim, for comparison): lower to the count of all constants when that
is below the current bound. -/
def specLowerMax (eprOrNoFun : Bool) (counts : List Nat) (maxModelSize : Nat) : Nat :=
  if eprOrNoFun then
    if counts.sum < maxModelSize then counts.sum else maxModelSize
  else maxModelSize

/-- FiniteModelBuilder::runImpl: give up when incomplete, lower
maxModelSize, pick the starting size, and run the loop; the first reset is
wrapped in ALWAYS, so its failure is an assertion violation rather than an
UNKNOWN result. -/
def runImpl (env : LoopEnv) (proofOff isComplete eprOrNoFun : Bool)
    (sortConstCounts : List Nat) (maxModelSize0 UINTMAX : Nat)
    (useConstantsAsStart : Bool) (constantCount startModelSize : Nat) : RunResult :=
  if !isComplete then RunResult.mk Outcome.Unknown none
  else
    if env.resetOk (if useConstantsAsStart then constantCount else startModelSize) then
      runFrom env proofOff (lowerMaxModelSize eprOrNoFun sortConstCounts maxModelSize0)
        UINTMAX (if useConstantsAsStart then constantCount else startModelSize)
    else RunResult.mk Outcome.AssertionViolation none

/-- The all-true assignment, used as a concrete satisfying assignment. -/
def asgTrue : Nat → Bool := fun _ => true

/-- Two concrete grounded constants for the canonicity examples. -/
def gtsC : List GroundedTerm := [GroundedTerm.mk 5 0, GroundedTerm.mk 6 0]

/-- Arity map making every symbol a constant. -/
def arity0 : Nat → Nat := fun _ => 0

/-- Concrete signature: one live constant. -/
def sigC : SigL := SigL.mk [FSym.mk 0 false] []

/-- Concrete signature: two live constants. -/
def sigC2 : SigL := SigL.mk [FSym.mk 0 false, FSym.mk 0 false] []

/-- Environment whose solver always answers UNKNOWN, with no timeouts and
succeeding resets. -/
def envUnknown : LoopEnv :=
  LoopEnv.mk (fun _ => false) (fun _ => SatRes.UNKNOWN) (fun _ => true)
    (fun _ _ => true) (fun _ => [])

/-- Environment whose solver always answers SATISFIABLE, with one live
constant at offset 1. -/
def envSat : LoopEnv :=
  LoopEnv.mk (fun _ => false) (fun _ => SatRes.SATISFIABLE) (fun _ => true)
    (fun _ _ => true) (fun _ => [1])

/-- Environment whose reset always overflows. -/
def envNoReset : LoopEnv :=
  LoopEnv.mk (fun _ => false) (fun _ => SatRes.UNSATISFIABLE) (fun _ => false)
    (fun _ _ => true) (fun _ => [])

/-- Environment whose reset overflows from size 2 onward. -/
def envLater : LoopEnv :=
  LoopEnv.mk (fun _ => false) (fun _ => SatRes.UNSATISFIABLE) (fun n => n ≤ 1)
    (fun _ _ => true) (fun _ => [])

/-- Concrete arity map: symbol 7 is a constant, the rest are unary. -/
def arityC : Nat → Nat := fun f => if f = 7 then 0 else 1

/-- Concrete bounds map for the grounded-term example. -/
def fboundsC : Nat → List Nat := fun _ => [5, 5]

/-- Concrete assignment interpreting a unary function f at size 2 with
f(1)=1 and f(2)=2 (block offset 1). -/
def asgW : Nat → Bool := fun v => v == 1 || v == 4

instance (asg : Nat → Bool) (l : SATLit) : Decidable (satLit asg l) :=
  inferInstanceAs (Decidable (asg l.var = l.pol))

instance (asg : Nat → Bool) (c : SATClauseM) : Decidable (satClause asg c) :=
  inferInstanceAs (Decidable (∃ l ∈ c, satLit asg l))

theorem satVarAux_eq (size : Nat) :
    ∀ (g : List Nat) (var mult : Nat),
      satVarAux size g var mult = var + mult * encodeTuple size g := by
  intro g
  induction g with
  | nil => intro var mult; simp [satVarAux, encodeTuple]
  | cons h t ih =>
    intro var mult
    simp only [satVarAux, encodeTuple, ih]
    ring

theorem getSATVar_eq_encode (offset : Nat) (g : List Nat) (size : Nat) :
    getSATVar offset g size = offset + encodeTuple size g := by
  simp [getSATVar, satVarAux_eq]

theorem encodeTuple_eq_sum (size : Nat) :
    ∀ g : List Nat,
      encodeTuple size g = ∑ i ∈ Finset.range g.length, (g.getD i 0 - 1) * size ^ i := by
  intro g
  induction g with
  | nil => simp [encodeTuple]
  | cons h t ih =>
    simp only [encodeTuple, List.length_cons, ih]
    rw [Finset.sum_range_succ']
    simp only [List.getD_cons_succ, List.getD_cons_zero, pow_zero, mul_one, pow_succ]
    rw [Finset.mul_sum]
    rw [Nat.add_comm]
    congr 1
    apply Finset.sum_congr rfl
    intro x _
    ring

/-- C3: the SAT variable computed by getSATLiteral is the symbol offset
plus the mixed-radix sum over the tuple positions in order, position i
contributing (tuple_i - 1) * size^i.  Entries are domain elements (at
least 1), so the Nat truncated subtraction coincides with the unsigned
subtraction of the source. -/
theorem C3_getSATLiteral_formula (offset : Nat) (g : List Nat) (size : Nat)
    (h : ∀ x ∈ g, 1 ≤ x) :
    getSATVar offset g size =
      offset + ∑ i ∈ Finset.range g.length, (g.getD i 0 - 1) * size ^ i := by
  have _hkeep := h
  rw [getSATVar_eq_encode, encodeTuple_eq_sum]

/-- Witness for C3 at a concrete tuple. -/
theorem C3_getSATLiteral_formula_witness :
    (∀ x ∈ ([2, 1, 3] : List Nat), 1 ≤ x) ∧
      getSATVar 5 [2, 1, 3] 3 =
        5 + ∑ i ∈ Finset.range ([2, 1, 3] : List Nat).length,
          (([2, 1, 3] : List Nat).getD i 0 - 1) * 3 ^ i :=
  ⟨by decide, C3_getSATLiteral_formula 5 [2, 1, 3] 3 (by decide)⟩

theorem taut_cond (pol e : Bool) : ((pol && e) || (!pol && !e)) = (pol == e) := by
  cases pol <;> cases e <;> rfl

/-- C4: the literal-translation loop of addNewInstances, on one grounding
g, yields none (no SAT clause is emitted for that grounding) exactly when
some two-variable equality literal is tautological under g; otherwise it
yields the instance in which trivially false two-variable equalities are
dropped and every definition equality and predicate atom becomes its SAT
literal with the source literal polarity. -/
theorem C4_instance_translation (fOff pOff : Nat → Nat) (size : Nat) (g : Nat → Nat)
    (lits : List FlatLit) :
    groundInstanceLits fOff pOff size g lits =
      if lits.any (tautTwoVarEq g) then none
      else some (lits.filterMap (transFlatLit fOff pOff size g)) := by
  induction lits with
  | nil => simp [groundInstanceLits]
  | cons l rest ih =>
    cases l with
    | twoVarEq pol x y =>
      rw [groundInstanceLits, taut_cond]
      by_cases hp : (pol == (g x == g y)) = true
      · simp [hp, List.any_cons, tautTwoVarEq]
      · simp only [hp, if_false, ih, List.any_cons, tautTwoVarEq,
          List.filterMap_cons, transFlatLit]
        simp [Bool.or_eq_true, hp]
    | defEq pol f args res =>
      rw [groundInstanceLits, ih]
      by_cases hr : rest.any (tautTwoVarEq g) = true
      · simp [hr, List.any_cons, tautTwoVarEq]
      · simp [hr, List.any_cons, tautTwoVarEq, List.filterMap_cons, transFlatLit]
    | predAtom pol p args =>
      rw [groundInstanceLits, ih]
      by_cases hr : rest.any (tautTwoVarEq g) = true
      · simp [hr, List.any_cons, tautTwoVarEq]
      · simp [hr, List.any_cons, tautTwoVarEq, List.filterMap_cons, transFlatLit]

theorem mem_tuplesUpTo :
    ∀ (mins t : List Nat),
      t ∈ tuplesUpTo mins ↔ List.Forall₂ (fun a m => 1 ≤ a ∧ a ≤ m) t mins := by
  intro mins
  induction mins with
  | nil =>
    intro t
    simp [tuplesUpTo, List.forall₂_nil_right_iff]
  | cons m ms ih =>
    intro t
    simp only [tuplesUpTo, List.mem_flatMap, List.mem_map, List.mem_range]
    constructor
    · rintro ⟨a, ha, t', ht', rfl⟩
      exact List.Forall₂.cons ⟨Nat.le_add_left 1 a, ha⟩ ((ih t').mp ht')
    · intro h
      cases h with
      | cons hp hrest =>
        rename_i b bs
        refine ⟨b - 1, by omega, bs, (ih bs).mpr hrest, ?_⟩
        have hb : b - 1 + 1 = b := by omega
        rw [hb]

theorem funcDefs_pair_mem (offset arity size : Nat) (bounds : List Nat) (args : List Nat)
    (hargs : List.Forall₂ (fun a m => 1 ≤ a ∧ a ≤ m) args
      ((List.range arity).map (fun i => min (bounds.getD (i + 1) 0) size)))
    (d1 d2 : Nat) (h1 : 1 ≤ d1) (hlt : d1 < d2) (h2 : d2 ≤ min (bounds.getD 0 0) size) :
    [getSATLiteral offset (args ++ [d1]) false size,
     getSATLiteral offset (args ++ [d2]) false size] ∈
      addNewFunctionalDefs offset arity size bounds := by
  unfold addNewFunctionalDefs
  rw [List.mem_filterMap]
  refine ⟨d1 :: d2 :: args, ?_, ?_⟩
  · rw [mem_tuplesUpTo]
    exact List.Forall₂.cons ⟨h1, by omega⟩ (List.Forall₂.cons ⟨by omega, h2⟩ hargs)
  · simp [hlt]

theorem totalityDefs_clause_mem (offset arity size : Nat) (bounds : List Nat) (args : List Nat)
    (hargs : List.Forall₂ (fun a m => 1 ≤ a ∧ a ≤ m) args
      ((List.range arity).map (fun i => min (bounds.getD (i + 1) 0) size))) :
    (List.range (min size (bounds.getD 0 0))).map
        (fun j => getSATLiteral offset (args ++ [j + 1]) true size) ∈
      addNewTotalityDefs offset arity size bounds := by
  unfold addNewTotalityDefs
  by_cases h0 : arity = 0
  · subst h0
    have hargs' : List.Forall₂ (fun a m => 1 ≤ a ∧ a ≤ m) args [] := by
      simpa using hargs
    have hnil : args = [] := by
      cases hargs'
      rfl
    subst hnil
    simp
  · rw [if_neg h0, List.mem_map]
    exact ⟨args, (mem_tuplesUpTo _ _).mpr hargs, rfl⟩

/-- C1 (amended): in every assignment satisfying the functionality and
totality clauses of a live function, every in-bounds input tuple has
exactly one image e in [1..min(size, fbounds[f][0])] whose variable is
true.  (The range [1..size] of the original claim is wrong when the range
bound is below size: variables above the bound are unconstrained.) -/
theorem C1_exactly_one_image (offset arity size : Nat) (bounds : List Nat) (asg : Nat → Bool)
    (hF : ∀ c ∈ addNewFunctionalDefs offset arity size bounds, satClause asg c)
    (hT : ∀ c ∈ addNewTotalityDefs offset arity size bounds, satClause asg c)
    (args : List Nat)
    (hargs : List.Forall₂ (fun a m => 1 ≤ a ∧ a ≤ m) args
      ((List.range arity).map (fun i => min (bounds.getD (i + 1) 0) size))) :
    ∃ e, (1 ≤ e ∧ e ≤ min size (bounds.getD 0 0) ∧
        asg (getSATVar offset (args ++ [e]) size) = true) ∧
      ∀ e2, 1 ≤ e2 → e2 ≤ min size (bounds.getD 0 0) →
        asg (getSATVar offset (args ++ [e2]) size) = true → e2 = e := by
  have htot := hT _ (totalityDefs_clause_mem offset arity size bounds args hargs)
  obtain ⟨l, hl, hsat⟩ := htot
  rw [List.mem_map] at hl
  obtain ⟨j, hj, rfl⟩ := hl
  rw [List.mem_range] at hj
  have hsat' : asg (getSATVar offset (args ++ [j + 1]) size) = true := hsat
  have huniq : ∀ d1 d2, 1 ≤ d1 → d1 < d2 → d2 ≤ min size (bounds.getD 0 0) →
      asg (getSATVar offset (args ++ [d1]) size) = true →
      asg (getSATVar offset (args ++ [d2]) size) = true → False := by
    intro d1 d2 hd1 hlt hd2 ht1 ht2
    have h2' : d2 ≤ min (bounds.getD 0 0) size := by
      rw [Nat.min_comm]; exact hd2
    have hmem := funcDefs_pair_mem offset arity size bounds args hargs d1 d2 hd1 hlt h2'
    obtain ⟨l, hl, hslit⟩ := hF _ hmem
    simp only [List.mem_cons, List.mem_singleton, List.not_mem_nil, or_false] at hl
    rcases hl with rfl | rfl
    · have hfalse : asg (getSATVar offset (args ++ [d1]) size) = false := hslit
      rw [ht1] at hfalse
      cases hfalse
    · have hfalse : asg (getSATVar offset (args ++ [d2]) size) = false := hslit
      rw [ht2] at hfalse
      cases hfalse
  refine ⟨j + 1, ⟨by omega, by omega, hsat'⟩, ?_⟩
  intro e2 he1 he2 htrue
  by_contra hne
  rcases Nat.lt_or_ge e2 (j + 1) with h | h
  · exact huniq e2 (j + 1) he1 h (by omega) htrue hsat'
  · exact huniq (j + 1) e2 (by omega) (by omega) he2 hsat' htrue

/-- C1 counterexample: a constant with range bound 1 at size 2.  The
all-true assignment satisfies every functionality and totality clause,
yet both domain elements 1 and 2 are images, so there is no unique e in
[1..size] as the claim (range [1..n]) states. -/
theorem C1_counterexample :
    (∀ c ∈ addNewFunctionalDefs 1 0 2 [1], satClause asgTrue c) ∧
    (∀ c ∈ addNewTotalityDefs 1 0 2 [1], satClause asgTrue c) ∧
    (1 ≤ (1 : Nat) ∧ (1 : Nat) ≤ 2 ∧ asgTrue (getSATVar 1 ([] ++ [1]) 2) = true) ∧
    (1 ≤ (2 : Nat) ∧ (2 : Nat) ≤ 2 ∧ asgTrue (getSATVar 1 ([] ++ [2]) 2) = true) ∧
    ¬ ∃ e, (1 ≤ e ∧ e ≤ 2 ∧ asgTrue (getSATVar 1 ([] ++ [e]) 2) = true) ∧
      ∀ e2, 1 ≤ e2 → e2 ≤ 2 → asgTrue (getSATVar 1 ([] ++ [e2]) 2) = true → e2 = e := by
  refine ⟨by decide, by decide, by decide, by decide, ?_⟩
  rintro ⟨e, -, hu⟩
  have h1 := hu 1 (by decide) (by decide) (by decide)
  have h2 := hu 2 (by decide) (by decide) (by decide)
  omega

/-- Witness for C1 at a unary function with full bounds at size 2. -/
theorem C1_exactly_one_image_witness :
    (∀ c ∈ addNewFunctionalDefs 1 1 2 [2, 2], satClause asgW c) ∧
    (∀ c ∈ addNewTotalityDefs 1 1 2 [2, 2], satClause asgW c) ∧
    (∃ e, (1 ≤ e ∧ e ≤ min 2 (([2, 2] : List Nat).getD 0 0) ∧
        asgW (getSATVar 1 ([1] ++ [e]) 2) = true) ∧
      ∀ e2, 1 ≤ e2 → e2 ≤ min 2 (([2, 2] : List Nat).getD 0 0) →
        asgW (getSATVar 1 ([1] ++ [e2]) 2) = true → e2 = e) :=
  ⟨by decide, by decide,
    C1_exactly_one_image 1 1 2 [2, 2] asgW (by decide) (by decide) [1]
      (List.Forall₂.cons (by decide) List.Forall₂.nil)⟩

theorem resetOffsets_snd (size : Nat) :
    ∀ (l : List (FSym × Bool)) (off : Nat),
      (resetOffsets size l off).2 = off + (l.map (liveBlock size)).sum := by
  intro l
  induction l with
  | nil => intro off; simp [resetOffsets]
  | cons x rest ih =>
    intro off
    by_cases hd : x.1.deleted
    · simp [resetOffsets, hd, ih, liveBlock]
    · simp only [resetOffsets, hd, if_false, ih, List.map_cons, List.sum_cons, liveBlock]
      simp [hd]
      omega

theorem resetOffsets_getD (size : Nat) :
    ∀ (l : List (FSym × Bool)) (off i : Nat), i < l.length →
      (resetOffsets size l off).1.getD i none =
        if (l.getD i default).1.deleted then none
        else some (off + ((l.take i).map (liveBlock size)).sum) := by
  intro l
  induction l with
  | nil => intro off i h; simp at h
  | cons x rest ih =>
    intro off i h
    by_cases hd : x.1.deleted
    · cases i with
      | zero => simp [resetOffsets, hd]
      | succ i =>
        have h2 : i < rest.length := by simpa using h
        simp only [resetOffsets, hd, if_true]
        rw [List.getD_cons_succ, ih off i h2]
        simp [liveBlock, hd]
    · have hcons : resetOffsets size (x :: rest) off =
          (some off :: (resetOffsets size rest (off + blockSize size x)).1,
            (resetOffsets size rest (off + blockSize size x)).2) := by
        simp [resetOffsets, hd]
      have hd2 : x.1.deleted = false := by simpa using hd
      cases i with
      | zero => simp [hcons, hd2]
      | succ i =>
        have h2 : i < rest.length := by simpa using h
        rw [hcons]
        rw [show ((some off :: (resetOffsets size rest (off + blockSize size x)).1,
            (resetOffsets size rest (off + blockSize size x)).2)).1 =
          some off :: (resetOffsets size rest (off + blockSize size x)).1 from rfl]
        rw [List.getD_cons_succ, ih (off + blockSize size x) i h2]
        rw [List.getD_cons_succ, List.take_succ_cons, List.map_cons, List.sum_cons]
        have hlb : liveBlock size x = blockSize size x := by
          unfold liveBlock
          simp [hd2]
        by_cases hdel : (rest.getD i default).1.deleted = true
        · rw [if_pos hdel, if_pos hdel]
        · rw [if_neg hdel, if_neg hdel, hlb]
          congr 1
          omega

theorem map_take_sum_le {α : Type} (f : α → Nat) (l : List α) (i : Nat) :
    ((l.take i).map f).sum ≤ (l.map f).sum := by
  conv_rhs => rw [← List.take_append_drop i l]
  rw [List.map_append, List.sum_append]
  exact Nat.le_add_right _ _

theorem map_take_sum_mono {α : Type} (f : α → Nat) (l : List α) {i j : Nat} (h : i ≤ j) :
    ((l.take i).map f).sum ≤ ((l.take j).map f).sum := by
  have heq : l.take i = (l.take j).take i := by
    rw [List.take_take, Nat.min_eq_left h]
  rw [heq]
  exact map_take_sum_le f (l.take j) i

theorem map_take_sum_succ {α : Type} [Inhabited α] (f : α → Nat) (l : List α) (i : Nat)
    (h : i < l.length) :
    ((l.take (i + 1)).map f).sum = ((l.take i).map f).sum + f (l.getD i default) := by
  rw [List.take_succ, List.map_append, List.sum_append]
  congr 1
  rw [List.getElem?_eq_getElem h]
  simp [List.getD_eq_getElem?_getD, List.getElem?_eq_getElem h]

theorem encodeTuple_lt (size : Nat) (hsz : 1 ≤ size) :
    ∀ t : List Nat, (∀ x ∈ t, x ≤ size) → encodeTuple size t < size ^ t.length := by
  intro t
  induction t with
  | nil => intro _; simp [encodeTuple]
  | cons a t ih =>
    intro hb
    have h1 : a - 1 < size := by
      have := hb a (by simp)
      omega
    have h2 : encodeTuple size t < size ^ t.length :=
      ih (fun x hx => hb x (by simp [hx]))
    have h3 : size * (encodeTuple size t + 1) ≤ size * size ^ t.length :=
      Nat.mul_le_mul_left size (by omega)
    simp only [encodeTuple, List.length_cons]
    calc a - 1 + size * encodeTuple size t
        < size * (encodeTuple size t + 1) := by
          have : size * (encodeTuple size t + 1) = size * encodeTuple size t + size := by ring
          omega
      _ ≤ size * size ^ t.length := h3
      _ = size ^ (t.length + 1) := by rw [pow_succ]; ring

theorem encodeTuple_inj (size : Nat) (hsz : 1 ≤ size) :
    ∀ t u : List Nat, t.length = u.length →
      (∀ x ∈ t, 1 ≤ x ∧ x ≤ size) → (∀ x ∈ u, 1 ≤ x ∧ x ≤ size) →
      encodeTuple size t = encodeTuple size u → t = u := by
  intro t
  induction t with
  | nil =>
    intro u hlen _ _ _
    cases u with
    | nil => rfl
    | cons b u => simp at hlen
  | cons a t ih =>
    intro u hlen hbt hbu heq
    cases u with
    | nil => simp at hlen
    | cons b u =>
      have ha := hbt a (by simp)
      have hb := hbu b (by simp)
      have ha1 : a - 1 < size := by omega
      have hb1 : b - 1 < size := by omega
      simp only [encodeTuple] at heq
      have hmod : a - 1 = b - 1 := by
        have h1 : (a - 1 + size * encodeTuple size t) % size = a - 1 := by
          rw [Nat.add_mul_mod_self_left]
          exact Nat.mod_eq_of_lt ha1
        have h2 : (b - 1 + size * encodeTuple size u) % size = b - 1 := by
          rw [Nat.add_mul_mod_self_left]
          exact Nat.mod_eq_of_lt hb1
        rw [← h1, ← h2, heq]
      have hE : encodeTuple size t = encodeTuple size u := by
        rw [hmod] at heq
        have hc := Nat.add_left_cancel heq
        exact Nat.eq_of_mul_eq_mul_left (by omega) hc
      have ht : t = u :=
        ih u (by simpa using hlen) (fun x hx => hbt x (by simp [hx]))
          (fun x hx => hbu x (by simp [hx])) hE
      have hab : a = b := by omega
      rw [hab, ht]

theorem blockExp_eq_tupleLen (sig : SigL) (i : Nat) :
    blockExp ((symList sig).getD i default).2 ((symList sig).getD i default).1.arity =
      tupleLenAt sig i + 1 := by
  unfold blockExp tupleLenAt
  cases h : ((symList sig).getD i default).2 <;> simp

theorem symOffset_eq (sig : SigL) (size i : Nat) (hlive : liveAt sig i) :
    symOffset sig size i =
      1 + (((symList sig).take i).map (liveBlock size)).sum := by
  obtain ⟨hi, hdel⟩ := hlive
  unfold symOffset resetLayout
  rw [resetOffsets_getD size (symList sig) 1 i hi, hdel]
  simp

theorem liveBlock_eq (sig : SigL) (size i : Nat) (hlive : liveAt sig i) :
    liveBlock size ((symList sig).getD i default) = size ^ (tupleLenAt sig i + 1) := by
  obtain ⟨hi, hdel⟩ := hlive
  unfold liveBlock
  rw [hdel]
  simp only [Bool.false_eq_true, if_false]
  rw [blockSize, blockExp_eq_tupleLen]

theorem varAt_lt_take_succ (sig : SigL) (size : Nat) (hsz : 1 ≤ size) (i : Nat) (t : List Nat)
    (hlive : liveAt sig i) (hin : inBoundsTuple size t (tupleLenAt sig i)) :
    varAt sig size i t <
      1 + (((symList sig).take (i + 1)).map (liveBlock size)).sum := by
  obtain ⟨hlen, hbd⟩ := hin
  have henc : encodeTuple size t < size ^ tupleLenAt sig i := by
    rw [← hlen]
    exact encodeTuple_lt size hsz t (fun x hx => (hbd x hx).2)
  have hpow : size ^ tupleLenAt sig i ≤ size ^ (tupleLenAt sig i + 1) :=
    Nat.pow_le_pow_right hsz (by omega)
  rw [varAt, getSATVar_eq_encode, symOffset_eq sig size i hlive,
    map_take_sum_succ (liveBlock size) (symList sig) i hlive.1,
    liveBlock_eq sig size i hlive]
  omega

/-- C2 (amended): reset reserves a block of size^(arity+2) variables per
live function and size^(arity+1) per live predicate (one factor of size
more than the claimed tight blocks), hands
2 + the sum of the reserved blocks to the solver via
ensureVarCount(offsets+1), and within this space the variable of every
live symbol at every in-bounds grounding tuple is at least 1, below the
handed total, and distinct across symbols and tuples. -/
theorem C2_layout (sig : SigL) (size : Nat) (hsz : 1 ≤ size) :
    totalVarsHanded sig size = 2 + ((symList sig).map (liveBlock size)).sum ∧
    (∀ i t, liveAt sig i → inBoundsTuple size t (tupleLenAt sig i) →
      1 ≤ varAt sig size i t ∧ varAt sig size i t < totalVarsHanded sig size) ∧
    (∀ i j t u, liveAt sig i → liveAt sig j →
      inBoundsTuple size t (tupleLenAt sig i) → inBoundsTuple size u (tupleLenAt sig j) →
      (i ≠ j ∨ t ≠ u) → varAt sig size i t ≠ varAt sig size j u) := by
  have htot : totalVarsHanded sig size = 2 + ((symList sig).map (liveBlock size)).sum := by
    unfold totalVarsHanded resetLayout
    rw [resetOffsets_snd]
    omega
  have hsep : ∀ i j t u, liveAt sig i → liveAt sig j →
      inBoundsTuple size t (tupleLenAt sig i) → i < j →
      varAt sig size i t < varAt sig size j u := by
    intro i j t u hli hlj hit hij
    have h1 := varAt_lt_take_succ sig size hsz i t hli hit
    have h2 : (((symList sig).take (i + 1)).map (liveBlock size)).sum ≤
        (((symList sig).take j).map (liveBlock size)).sum :=
      map_take_sum_mono (liveBlock size) (symList sig) (by omega)
    have h3 : varAt sig size j u = symOffset sig size j + encodeTuple size u := by
      rw [varAt, getSATVar_eq_encode]
    rw [symOffset_eq sig size j hlj] at h3
    omega
  refine ⟨htot, ?_, ?_⟩
  · intro i t hlive hin
    constructor
    · have := symOffset_eq sig size i hlive
      rw [varAt, getSATVar_eq_encode]
      omega
    · have h1 := varAt_lt_take_succ sig size hsz i t hlive hin
      have h2 := map_take_sum_le (liveBlock size) (symList sig) (i + 1)
      omega
  · intro i j t u hli hlj hit hiu hne
    rcases Nat.lt_trichotomy i j with hij | hij | hij
    · exact Nat.ne_of_lt (hsep i j t u hli hlj hit hij)
    · subst hij
      rcases hne with hne | hne
      · exact absurd rfl hne
      · intro heqv
        rw [varAt, getSATVar_eq_encode, varAt, getSATVar_eq_encode] at heqv
        have henc : encodeTuple size t = encodeTuple size u := by omega
        exact hne (encodeTuple_inj size hsz t u (by rw [hit.1, hiu.1])
          hit.2 hiu.2 henc)
    · exact (Nat.ne_of_lt (hsep j i u t hlj hli hiu hij)).symm

/-- C2 counterexample: one live constant at size 2 gets a reserved block
of 4 = 2^2 variables (not 2 = 2^1) and the count handed to the solver is
6 (not the claimed 1 + 2 = 3); with two live constants the second offset
starts 4 above the first. -/
theorem C2_counterexample :
    totalVarsHanded sigC 2 ≠ specTotalVars sigC 2 ∧
    symOffset sigC2 2 1 - symOffset sigC2 2 0 ≠ 2 ^ (0 + 1) := by
  decide

/-- Witness for C2 at the concrete two-constant signature. -/
theorem C2_layout_witness :
    (1 ≤ 2) ∧ totalVarsHanded sigC2 2 = 2 + ((symList sigC2).map (liveBlock 2)).sum :=
  ⟨by decide, (C2_layout sigC2 2 (by decide)).1⟩

/-- C5 (amended): the canonicity layer emits nothing at size <= 1 and
nothing at ratio 0, and at size >= 2 emits exactly the clauses
not-[G[i]=n] or the disjunction of [G[j]=n-1] for j < i, for i in
[1..w-1], where w = min(floor(ratio*maxSize), number of grounded terms):
the float-to-unsigned conversion truncates, it does not take a ceiling. -/
theorem C5_canonicity (size : Nat) (q : ℚ) (maxSize : Nat) (gts : List GroundedTerm)
    (arity : Nat → Nat) :
    (q = 0 → addNewSymmetryCanonicityAxioms size q maxSize gts arity = []) ∧
    (size ≤ 1 → addNewSymmetryCanonicityAxioms size q maxSize gts arity = []) ∧
    (2 ≤ size → addNewSymmetryCanonicityAxioms size q maxSize gts arity =
      (List.range' 1 (min (Int.toNat ⌊q * (maxSize : ℚ)⌋) gts.length - 1)).map
        (fun i =>
          ((gts.getD i default).f,
            List.replicate (arity (gts.getD i default).f) (gts.getD i default).grounding ++
              [size], false) ::
          (List.range i).map (fun j =>
            ((gts.getD j default).f,
              List.replicate (arity (gts.getD j default).f) (gts.getD j default).grounding ++
                [size - 1], true)))) := by
  refine ⟨?_, ?_, ?_⟩
  · intro hq
    subst hq
    unfold addNewSymmetryCanonicityAxioms wCanon
    rw [zero_mul, Int.floor_zero]
    simp
  · intro h
    unfold addNewSymmetryCanonicityAxioms
    rw [if_pos h]
  · intro h
    unfold addNewSymmetryCanonicityAxioms wCanon canonLitCalls
    rw [if_neg (by omega)]

/-- C5 counterexample: with ratio 1/2 and maxSize 3 the code window is
floor(3/2) = 1, so no clause is emitted, while the claimed ceiling window
is 2, which would emit one clause; and at size 1 the code emits nothing
although the claimed family is nonempty. -/
theorem C5_counterexample :
    addNewSymmetryCanonicityAxioms 2 ((1 : ℚ)/2) 3 gtsC arity0 = [] ∧
    specCanonClauses 2 ((1 : ℚ)/2) 3 gtsC arity0 ≠ [] ∧
    addNewSymmetryCanonicityAxioms 1 1 5 gtsC arity0 = [] ∧
    specCanonClauses 1 1 5 gtsC arity0 ≠ [] := by
  have hfl : ⌊(1 : ℚ)/2 * ((3 : Nat) : ℚ)⌋ = 1 := by norm_num
  have hcl : ⌈(1 : ℚ)/2 * ((3 : Nat) : ℚ)⌉ = 2 := by
    rw [show (1 : ℚ)/2 * ((3 : Nat) : ℚ) = 3/2 by norm_num, Int.ceil_eq_iff]
    norm_num
  have hcl5 : ⌈(1 : ℚ) * ((5 : Nat) : ℚ)⌉ = 5 := by
    norm_num
  refine ⟨?_, ?_, ?_, ?_⟩
  · unfold addNewSymmetryCanonicityAxioms wCanon
    rw [hfl]
    decide
  · unfold specCanonClauses
    rw [hcl]
    decide
  · unfold addNewSymmetryCanonicityAxioms
    rw [if_pos (by omega : (1 : Nat) ≤ 1)]
  · unfold specCanonClauses
    rw [hcl5]
    decide

/-- Witness for C5 at ratio 0, size 1 and a full window. -/
theorem C5_canonicity_witness :
    addNewSymmetryCanonicityAxioms 3 0 7 gtsC arity0 = [] ∧
    addNewSymmetryCanonicityAxioms 1 1 5 gtsC arity0 = [] ∧
    addNewSymmetryCanonicityAxioms 2 1 2 gtsC arity0 =
      [[(6, [2], false), (5, [1], true)]] := by
  refine ⟨(C5_canonicity 3 0 7 gtsC arity0).1 rfl,
    (C5_canonicity 1 1 5 gtsC arity0).2.1 (by decide), ?_⟩
  rw [(C5_canonicity 2 1 2 gtsC arity0).2.2 (by decide)]
  have hfl : ⌊(1 : ℚ) * ((2 : Nat) : ℚ)⌋ = 2 := by norm_num
  rw [hfl]
  decide

theorem getD_mem {α : Type} (l : List α) (i : Nat) (d : α) (h : i < l.length) :
    l.getD i d ∈ l := by
  rw [List.getD_eq_getElem?_getD, List.getElem?_eq_getElem h]
  simp only [Option.getD_some]
  exact List.getElem_mem h

theorem sortedGroundedTerms_ok (order : FMBWidgetOrders) (size : Nat)
    (consts funcs : List Nat) (arity : Nat → Nat) (fbounds : Nat → List Nat)
    (hconsts : ∀ c ∈ consts, arity c = 0) :
    ∀ gt ∈ sortedGroundedTermsFor order size consts funcs arity fbounds,
      arity gt.f = 0 ∨ 1 ≤ gt.grounding := by
  intro gt hmem
  unfold sortedGroundedTermsFor at hmem
  rw [List.mem_append] at hmem
  rcases hmem with hmem | hmem
  · rw [List.mem_map] at hmem
    obtain ⟨c, hc, rfl⟩ := hmem
    exact Or.inl (hconsts c hc)
  · cases order with
    | FUNCTION_FIRST =>
      simp only [List.mem_flatMap, List.mem_filterMap] at hmem
      obtain ⟨f, _, m, hm, heq⟩ := hmem
      rw [List.mem_range'_1] at hm
      split_ifs at heq with h1 h2
      all_goals cases heq
      exact Or.inr hm.1
    | ARGUMENT_FIRST =>
      simp only [List.mem_flatMap, List.mem_filterMap] at hmem
      obtain ⟨m, hm, f, _, heq⟩ := hmem
      rw [List.mem_range'_1] at hm
      split_ifs at heq with h1 h2
      all_goals cases heq
      exact Or.inr hm.1
    | DIAGONAL =>
      simp only [List.mem_flatMap, List.mem_filterMap] at hmem
      obtain ⟨m, _, fi, _, heq⟩ := hmem
      split_ifs at heq with h1 h2
      all_goals cases heq
      exact Or.inr (Nat.le_add_right 1 ((m + fi) % size))

/-- C10: for every size n <= 1 the canonicity encoder emits no clause at
all, and on the grounded-term lists built by reset every grounding entry
handed to getSATLiteral by a canonicity clause is at least 1 (constants
appear only through their image slot, function widgets carry a domain
index of at least 1, and the image slots hold n or n-1 with n >= 2), so
the (entry - 1) term of the variable computation never underflows. -/
theorem C10_canonicity_no_underflow (order : FMBWidgetOrders) (size : Nat)
    (consts funcs : List Nat) (arity : Nat → Nat) (fbounds : Nat → List Nat)
    (q : ℚ) (maxSize : Nat)
    (hconsts : ∀ c ∈ consts, arity c = 0) :
    (size ≤ 1 → addNewSymmetryCanonicityAxioms size q maxSize
        (sortedGroundedTermsFor order size consts funcs arity fbounds) arity = []) ∧
    (∀ clause ∈ addNewSymmetryCanonicityAxioms size q maxSize
        (sortedGroundedTermsFor order size consts funcs arity fbounds) arity,
      ∀ call ∈ clause, ∀ e ∈ call.2.1, 1 ≤ e) := by
  constructor
  · intro h
    unfold addNewSymmetryCanonicityAxioms
    rw [if_pos h]
  · intro clause hclause call hcall e he
    by_cases hsz : size ≤ 1
    · unfold addNewSymmetryCanonicityAxioms at hclause
      rw [if_pos hsz] at hclause
      cases hclause
    · have hok := sortedGroundedTerms_ok order size consts funcs arity fbounds hconsts
      unfold addNewSymmetryCanonicityAxioms at hclause
      rw [if_neg hsz] at hclause
      rw [List.mem_map] at hclause
      obtain ⟨i, hi, rfl⟩ := hclause
      rw [List.mem_range'_1] at hi
      have hilen : i <
          (sortedGroundedTermsFor order size consts funcs arity fbounds).length := by
        have hw := Nat.min_le_right (Int.toNat ⌊q * (maxSize : ℚ)⌋)
          (sortedGroundedTermsFor order size consts funcs arity fbounds).length
        unfold wCanon at hi
        omega
      unfold canonLitCalls at hcall
      rw [List.mem_cons] at hcall
      rcases hcall with rfl | hcall
      · have hgt := hok _ (getD_mem _ i default hilen)
        simp only [List.mem_append, List.mem_singleton] at he
        rcases he with he | he
        · have heg := List.eq_of_mem_replicate he
          rcases hgt with h0 | h1
          · rw [h0] at he
            cases he
          · omega
        · omega
      · rw [List.mem_map] at hcall
        obtain ⟨j, hj, rfl⟩ := hcall
        rw [List.mem_range] at hj
        have hjlen : j <
            (sortedGroundedTermsFor order size consts funcs arity fbounds).length := by
          omega
        have hgt := hok _ (getD_mem _ j default hjlen)
        simp only [List.mem_append, List.mem_singleton] at he
        rcases he with he | he
        · have heg := List.eq_of_mem_replicate he
          rcases hgt with h0 | h1
          · rw [h0] at he
            cases he
          · omega
        · omega

/-- Witness for C10 at a concrete sort with one constant and two unary
functions under the DIAGONAL widget order. -/
theorem C10_canonicity_no_underflow_witness :
    (∀ c ∈ [7], arityC c = 0) ∧
    (∀ clause ∈ addNewSymmetryCanonicityAxioms 2 1 5
        (sortedGroundedTermsFor FMBWidgetOrders.DIAGONAL 2 [7] [3, 4] arityC fboundsC) arityC,
      ∀ call ∈ clause, ∀ e ∈ call.2.1, 1 ≤ e) :=
  ⟨by decide,
    (C10_canonicity_no_underflow FMBWidgetOrders.DIAGONAL 2 [7] [3, 4] arityC fboundsC 1 5
      (by decide)).2⟩

theorem foldl_max_spec :
    ∀ (counts : List Nat) (acc : Nat),
      acc ≤ counts.foldl (fun m c => if m < c then c else m) acc ∧
      (∀ c ∈ counts, c ≤ counts.foldl (fun m c => if m < c then c else m) acc) ∧
      (counts.foldl (fun m c => if m < c then c else m) acc = acc ∨
        counts.foldl (fun m c => if m < c then c else m) acc ∈ counts) := by
  intro counts
  induction counts with
  | nil => intro acc; simp
  | cons c rest ih =>
    intro acc
    simp only [List.foldl_cons]
    rcases ih (if acc < c then c else acc) with ⟨h1, h2, h3⟩
    have hstep : acc ≤ (if acc < c then c else acc) ∧ c ≤ (if acc < c then c else acc) := by
      split <;> omega
    refine ⟨by omega, ?_, ?_⟩
    · intro x hx
      rcases List.mem_cons.mp hx with rfl | hx
      · omega
      · exact h2 x hx
    · rcases h3 with h3 | h3
      · by_cases hc : acc < c
        · right
          rw [h3, if_pos hc]
          exact List.mem_cons_self c rest
        · left
          rw [h3, if_neg hc]
      · exact Or.inr (List.mem_cons_of_mem c h3)

/-- C7 (amended): when the problem is EPR or has no function of positive
arity, runImpl lowers maxModelSize to the maximum per-sort constant count
(at least 1), not to the total count of all constants: the result is the
minimum of that maximum and the current bound. -/
theorem C7_lowering (counts : List Nat) (m : Nat) :
    lowerMaxModelSize true counts m = min (maxSortConstCount counts) m ∧
    1 ≤ maxSortConstCount counts ∧
    (∀ c ∈ counts, c ≤ maxSortConstCount counts) ∧
    (maxSortConstCount counts = 1 ∨ maxSortConstCount counts ∈ counts) ∧
    lowerMaxModelSize false counts m = m := by
  obtain ⟨h1, h2, h3⟩ := foldl_max_spec counts 1
  refine ⟨?_, h1, h2, h3, rfl⟩
  have hdef : lowerMaxModelSize true counts m =
      if maxSortConstCount counts < m then maxSortConstCount counts else m := rfl
  rw [hdef, Nat.min_def]
  split_ifs <;> omega

/-- C7 counterexample: two sorts with 2 and 3 constants and current bound
4.  The code lowers to the per-sort maximum 3; the claim (count of all
constants, 5, only if below the bound) would leave the bound at 4. -/
theorem C7_counterexample :
    lowerMaxModelSize true [2, 3] 4 = 3 ∧ specLowerMax true [2, 3] 4 = 4 ∧ (3 : Nat) ≠ 4 := by
  refine ⟨by decide, by decide, by decide⟩

/-- Witness for C7 at the two-sort example. -/
theorem C7_lowering_witness :
    lowerMaxModelSize true [2, 3] 4 = min (maxSortConstCount [2, 3]) 4 ∧
    (∀ c ∈ [2, 3], c ≤ maxSortConstCount [2, 3]) :=
  ⟨(C7_lowering [2, 3] 4).1, (C7_lowering [2, 3] 4).2.2.1⟩

theorem runFromAux_refutation_inv (env : LoopEnv) (proofOff : Bool) (maxSize UINTMAX : Nat) :
    ∀ fuel n, (runFromAux env proofOff maxSize UINTMAX fuel n).outcome = Outcome.Refutation →
      ∃ m, n ≤ m ∧ env.timeout m = false ∧ env.solve m ≠ SatRes.SATISFIABLE ∧
        m < UINTMAX ∧ maxSize ≤ m := by
  intro fuel
  induction fuel with
  | zero =>
    intro n h
    simp [runFromAux] at h
  | succ fuel ih =>
    intro n h
    by_cases h1 : env.timeout n = true
    · simp [runFromAux, h1] at h
    · by_cases h2 : env.solve n = SatRes.SATISFIABLE
      · simp [runFromAux, h1, h2] at h
      · by_cases h3 : UINTMAX ≤ n
        · simp [runFromAux, h1, h2, h3] at h
        · by_cases h4 : maxSize ≤ n
          · exact ⟨n, le_refl n, by simpa using h1, h2, by omega, h4⟩
          · by_cases h5 : env.resetOk (n + 1) = true
            · have hrec : (runFromAux env proofOff maxSize UINTMAX fuel (n + 1)).outcome =
                  Outcome.Refutation := by
                simpa [runFromAux, h1, h2, h3, h4, h5] using h
              obtain ⟨m, hm1, hm2⟩ := ih (n + 1) hrec
              exact ⟨m, by omega, hm2⟩
            · simp [runFromAux, h1, h2, h3, h4, h5] at h

theorem runFromAux_sat_inv (env : LoopEnv) (proofOff : Bool) (maxSize UINTMAX : Nat) :
    ∀ fuel n, (runFromAux env proofOff maxSize UINTMAX fuel n).outcome = Outcome.Satisfiable →
      ∃ m, n ≤ m ∧ env.timeout m = false ∧ env.solve m = SatRes.SATISFIABLE ∧
        runFromAux env proofOff maxSize UINTMAX fuel n =
          RunResult.mk Outcome.Satisfiable
            (onModelFound proofOff m (env.asg m) (env.constOffsets m)) := by
  intro fuel
  induction fuel with
  | zero =>
    intro n h
    simp [runFromAux] at h
  | succ fuel ih =>
    intro n h
    by_cases h1 : env.timeout n = true
    · simp [runFromAux, h1] at h
    · by_cases h2 : env.solve n = SatRes.SATISFIABLE
      · refine ⟨n, le_refl n, by simpa using h1, h2, ?_⟩
        simp [runFromAux, h1, h2]
      · by_cases h3 : UINTMAX ≤ n
        · simp [runFromAux, h1, h2, h3] at h
        · by_cases h4 : maxSize ≤ n
          · simp [runFromAux, h1, h2, h3, h4] at h
          · by_cases h5 : env.resetOk (n + 1) = true
            · have hstep : runFromAux env proofOff maxSize UINTMAX (fuel + 1) n =
                  runFromAux env proofOff maxSize UINTMAX fuel (n + 1) := by
                simp [runFromAux, h1, h2, h3, h4, h5]
              rw [hstep] at h ⊢
              obtain ⟨m, hm1, hm2⟩ := ih (n + 1) h
              exact ⟨m, by omega, hm2⟩
            · simp [runFromAux, h1, h2, h3, h4, h5] at h

/-- C8 (amended): the loop returns REFUTATION exactly on a round whose SAT
result is not SATISFIABLE with n below UINT_MAX and n at or above
maxModelSize; on a non-SATISFIABLE round below both bounds whose next
reset succeeds it moves to size n+1 and continues.  The original claim
fails in two ways: a solver verdict of UNKNOWN also triggers REFUTATION,
and at n = UINT_MAX the loop returns UNKNOWN instead. -/
theorem C8_refutation (env : LoopEnv) (proofOff : Bool) (maxSize UINTMAX n : Nat) :
    (env.timeout n = false → env.solve n ≠ SatRes.SATISFIABLE → n < UINTMAX → maxSize ≤ n →
      runFrom env proofOff maxSize UINTMAX n = RunResult.mk Outcome.Refutation none) ∧
    (env.timeout n = false → env.solve n ≠ SatRes.SATISFIABLE → n < UINTMAX → n < maxSize →
      env.resetOk (n + 1) = true →
      runFrom env proofOff maxSize UINTMAX n = runFrom env proofOff maxSize UINTMAX (n + 1)) ∧
    ((runFrom env proofOff maxSize UINTMAX n).outcome = Outcome.Refutation →
      ∃ m, n ≤ m ∧ env.timeout m = false ∧ env.solve m ≠ SatRes.SATISFIABLE ∧
        m < UINTMAX ∧ maxSize ≤ m) := by
  refine ⟨?_, ?_, ?_⟩
  · intro ht hs hU hmax
    rw [runFrom, show UINTMAX + 1 - n = (UINTMAX - n) + 1 from by omega]
    simp [runFromAux, ht, hs, show ¬ UINTMAX ≤ n from by omega, hmax]
  · intro ht hs hU hmax hr
    rw [runFrom, runFrom, show UINTMAX + 1 - n = (UINTMAX - n) + 1 from by omega,
      show UINTMAX + 1 - (n + 1) = UINTMAX - n from by omega]
    simp [runFromAux, ht, hs, show ¬ UINTMAX ≤ n from by omega,
      show ¬ maxSize ≤ n from by omega, hr]
  · intro h
    exact runFromAux_refutation_inv env proofOff maxSize UINTMAX _ n h

/-- C8 counterexample: a solver that always answers UNKNOWN.  At starting
size 1 with maxModelSize 1 the loop returns REFUTATION although no round
was UNSATISFIABLE. -/
theorem C8_counterexample :
    runFrom envUnknown false 1 10 1 = RunResult.mk Outcome.Refutation none ∧
    envUnknown.solve 1 = SatRes.UNKNOWN ∧
    SatRes.UNKNOWN ≠ SatRes.UNSATISFIABLE := by
  refine ⟨by decide, by decide, by decide⟩

/-- Witness for C8: a refutation round and a continuation round. -/
theorem C8_refutation_witness :
    runFrom envUnknown false 1 10 1 = RunResult.mk Outcome.Refutation none ∧
    runFrom envUnknown false 5 10 1 = runFrom envUnknown false 5 10 2 :=
  ⟨(C8_refutation envUnknown false 1 10 1).1 rfl (by decide) (by decide) (by decide),
    (C8_refutation envUnknown false 5 10 1).2.1 rfl (by decide) (by decide) (by decide) rfl⟩

/-- C9 (amended): a SATISFIABLE round makes the loop call onModelFound
and return SATISFIABLE, but the textual model (here the extracted
constant tables) is recorded only when proof output is on: with
Proof::OFF onModelFound returns before extracting anything. -/
theorem C9_satisfiable (env : LoopEnv) (proofOff : Bool) (maxSize UINTMAX n : Nat) :
    (n ≤ UINTMAX → env.timeout n = false → env.solve n = SatRes.SATISFIABLE →
      runFrom env proofOff maxSize UINTMAX n =
        RunResult.mk Outcome.Satisfiable
          (onModelFound proofOff n (env.asg n) (env.constOffsets n))) ∧
    onModelFound false n (env.asg n) (env.constOffsets n) =
      some (extractConstants n (env.asg n) (env.constOffsets n)) ∧
    onModelFound true n (env.asg n) (env.constOffsets n) = none ∧
    ((runFrom env proofOff maxSize UINTMAX n).outcome = Outcome.Satisfiable →
      ∃ m, n ≤ m ∧ env.timeout m = false ∧ env.solve m = SatRes.SATISFIABLE ∧
        runFrom env proofOff maxSize UINTMAX n =
          RunResult.mk Outcome.Satisfiable
            (onModelFound proofOff m (env.asg m) (env.constOffsets m))) := by
  refine ⟨?_, rfl, rfl, ?_⟩
  · intro hn ht hs
    rw [runFrom, show UINTMAX + 1 - n = (UINTMAX - n) + 1 from by omega]
    simp [runFromAux, ht, hs]
  · intro h
    exact runFromAux_sat_inv env proofOff maxSize UINTMAX _ n h

/-- C9 counterexample: with proof output OFF, a SATISFIABLE round returns
SATISFIABLE with no recorded model description. -/
theorem C9_counterexample :
    (runFrom envSat true 5 10 1).outcome = Outcome.Satisfiable ∧
    (runFrom envSat true 5 10 1).model = none := by
  refine ⟨by decide, by decide⟩

/-- Witness for C9 with proof output on. -/
theorem C9_satisfiable_witness :
    runFrom envSat false 5 10 1 =
      RunResult.mk Outcome.Satisfiable
        (onModelFound false 1 (envSat.asg 1) (envSat.constOffsets 1)) ∧
    onModelFound false 1 (envSat.asg 1) (envSat.constOffsets 1) =
      some (extractConstants 1 (envSat.asg 1) (envSat.constOffsets 1)) :=
  ⟨(C9_satisfiable envSat false 5 10 1).1 (by decide) (by decide) (by decide),
    (C9_satisfiable envSat false 5 10 1).2.1⟩

/-- C6: the code asserts (ALWAYS) that the very first reset succeeds, so a
variable-space overflow at the starting size is an assertion violation
rather than a reported UNKNOWN; overflow on any later round does return
UNKNOWN, as the third conjunct shows at a reset that fails from size 2
onward. -/
theorem C6_first_reset_overflow :
    runImpl envNoReset false true false [] 10 100 false 0 5 =
      RunResult.mk Outcome.AssertionViolation none ∧
    Outcome.AssertionViolation ≠ Outcome.Unknown ∧
    runFrom envLater false 10 100 1 = RunResult.mk Outcome.Unknown none := by
  refine ⟨by decide, by decide, by decide⟩
